import Mathlib

/-!
Verification of the appmetrics library (reservoir sampling, histogram and meter
instruments, statistics kernel, metric registry) against its specification.

The Python sources are shallowly embedded in Lean:
* numeric values are modelled as exact rationals (`ℚ`);
* fallible code paths return `Except PyErr`;
* platform transcendental primitives (`math.sqrt`, `math.e`, fractional powers)
  cannot be represented inside `ℚ`, so they enter the model as the fields of a
  `FloatOps` parameter; theorems that depend on one of their values state that
  dependence as an explicit hypothesis (for example `ops.sqrt 0 = 0`, which is
  exact in IEEE arithmetic);
* random draws and clock readings are universally quantified input parameters.
-/

namespace Appmetrics

/-- Errors raised by the modelled Python code paths: `exceptions.StatisticsError`,
`ZeroDivisionError`, `IndexError`, `exceptions.DuplicateMetricError` and
`exceptions.InvalidMetricError`. -/
inductive PyErr
  | statisticsError
  | zeroDivisionError
  | indexError
  | duplicateMetricError
  | invalidMetricError
  deriving DecidableEq, Repr

/-- Platform floating-point primitives used by `statistics.py` which are not
representable inside `ℚ`: `sqrt` models `math.sqrt`, `euler` models the constant
`math.e`, and `rootN x n` models `math.pow(x, 1.0/n)` (so `rootN x 3` is the cube
root `x ** (1.0/3)`). -/
structure FloatOps where
  sqrt : ℚ → ℚ
  euler : ℚ
  rootN : ℚ → ℕ → ℚ

/-- A concrete `FloatOps` instance used to evaluate closed statements whose truth
does not depend on the values of the transcendental primitives. Its `sqrt` sends
everything to `0` (so `sqrt 0 = 0` holds, as in IEEE arithmetic). -/
def ratOps : FloatOps where
  sqrt := fun _ => 0
  euler := 3
  rootN := fun _ _ => 1

/-- Python float division `a / b`: raises `ZeroDivisionError` on a zero divisor. -/
def pydiv (a b : ℚ) : Except PyErr ℚ :=
  if b = 0 then .error .zeroDivisionError else .ok (a / b)

/-- Mathematical floor of a rational, computed from the reduced fraction with
integer floor division (kernel-reducible, unlike `Int.floor` on `ℚ`). -/
def floorQ (q : ℚ) : ℤ := Int.fdiv q.num q.den

/-- Python `int()` on a float: truncation toward zero. -/
def pyTrunc (q : ℚ) : ℤ := if q < 0 then -floorQ (-q) else floorQ q

/-- Python 2 `round()`: round half away from zero (the statistics module is
Python 2 code: it uses `iteritems`, `xrange` and the `reduce` builtin). -/
def pyRound (q : ℚ) : ℤ := if q < 0 then -floorQ (-q + 1/2) else floorQ (q + 1/2)

/-- Python list indexing `data[i]`: negative indices address from the end, and an
out-of-range index raises `IndexError`. -/
def pyGet (data : List ℚ) (i : ℤ) : Except PyErr ℚ :=
  let j : ℤ := if i < 0 then i + data.length else i
  if 0 ≤ j ∧ j.toNat < data.length then .ok (data.getD j.toNat 0) else .error .indexError

/-- statistics.sum: the high-precision sum accumulates the exact rational value of
its inputs (per-denominator integer partials combined through `Fraction`), so on
rational inputs it returns exactly the rational total. -/
def sumQ (data : List ℚ) : ℚ := data.sum

/-- statistics.mean. The final division is by `n ≥ 1`, hence never by zero. -/
def mean (data : List ℚ) : Except PyErr ℚ :=
  if data.length < 1 then .error .statisticsError
  else .ok (sumQ data / (data.length : ℚ))

/-- statistics._ss with `c = None` (the only way the library calls it): two-pass
sum of squared deviations. The division is by `len(data) ≥ 1` since `mean`
succeeded. -/
def ssQ (data : List ℚ) : Except PyErr ℚ := do
  let c ← mean data
  let s := sumQ (data.map (fun x => (x - c) ^ 2))
  .ok (s - sumQ (data.map (fun x => x - c)) ^ 2 / (data.length : ℚ))

/-- statistics.variance with `xbar = None` (the only way the library calls it):
sample variance `ss / (n - 1)`, requiring at least two data points. -/
def variance (data : List ℚ) : Except PyErr ℚ :=
  if data.length < 2 then .error .statisticsError
  else do
    let s ← ssQ data
    .ok (s / ((data.length : ℚ) - 1))

/-- statistics.stdev: square root of the sample variance (floats have no `sqrt`
attribute, so `math.sqrt` is used; modelled by `ops.sqrt`). -/
def stdev (ops : FloatOps) (data : List ℚ) : Except PyErr ℚ := do
  let v ← variance data
  .ok (ops.sqrt v)

/-- statistics.geometric_mean: replaces `0` by `math.e` and negative values by
`1.0`, then returns `pow(fabs(product), 1.0/n)`. -/
def geometricMean (ops : FloatOps) (data : List ℚ) : Except PyErr ℚ :=
  if data = [] then .error .statisticsError
  else
    let d := data.map (fun x => if 0 < x then x else if x = 0 then ops.euler else 1)
    .ok (ops.rootN |d.prod| data.length)

/-- statistics.harmonic_mean: `n / Σ 1/x`, with `1/0` replaced by `0` inside the
sum. The outer division CAN divide by zero (e.g. on `[0.0]`), raising
`ZeroDivisionError`. -/
def harmonicMean (data : List ℚ) : Except PyErr ℚ :=
  if data = [] then .error .statisticsError
  else pydiv (data.length : ℚ) (sumQ (data.map (fun x => if x = 0 then 0 else 1 / x)))

/-- statistics.median: sort, then middle element (odd length) or average of the
two middle elements (even length). `List.insertionSort` is a stable ascending
sort, as Python's `sorted`. -/
def median (data : List ℚ) : Except PyErr ℚ :=
  let d := data.insertionSort (· ≤ ·)
  let n := data.length
  if n = 0 then .error .statisticsError
  else if n % 2 = 1 then .ok (d.getD (n / 2) 0)
  else .ok ((d.getD (n / 2 - 1) 0 + d.getD (n / 2) 0) / 2)

/-- statistics.skewness: `(Σ ((x-μ)³ / σ³)) / n`. The per-element division is by
`σ³` with no zero guard: on constant data `σ = 0` and Python raises
`ZeroDivisionError`. -/
def skewness (ops : FloatOps) (data : List ℚ) : Except PyErr ℚ :=
  if data = [] then .error .statisticsError
  else do
    let sd := (← stdev ops data) ^ 3
    let mn ← mean data
    let terms ← data.mapM (fun x => pydiv ((x - mn) ^ 3) sd)
    .ok (sumQ terms / (data.length : ℚ))

/-- statistics.kurtosis: `(Σ ((x-μ)⁴ / σ⁴)) / n - 3`, with the same unguarded
division by `σ⁴` as `skewness`. -/
def kurtosis (ops : FloatOps) (data : List ℚ) : Except PyErr ℚ :=
  if data = [] then .error .statisticsError
  else do
    let sd := (← stdev ops data) ^ 4
    let mn ← mean data
    let terms ← data.mapM (fun x => pydiv ((x - mn) ^ 4) sd)
    .ok (sumQ terms / (data.length : ℚ) - 3)

/-- statistics.percentile: `idx = (p/100)·n - 0.5`; `StatisticsError` when
`idx < 0` or `idx > n`; otherwise the Python indexing `data[int(idx)]` (which
raises `IndexError` when `int(idx) = n`). -/
def percentile (data : List ℚ) (p : ℚ) : Except PyErr ℚ :=
  let size : ℚ := (data.length : ℚ)
  let idx := p / 100 * size - 1/2
  if idx < 0 ∨ size < idx then .error .statisticsError
  else pyGet data (pyTrunc idx)

/-- statistics._get_bin_width: `int(round(3.5·σ / n^(1/3)))`, clamped to 1 when
zero. -/
def getBinWidth (ops : FloatOps) (sd : ℚ) (count : ℕ) : Except PyErr ℤ := do
  let q ← pydiv (7/2 * sd) (ops.rootN (count : ℚ) 3)
  let w := pyRound q
  .ok (if w = 0 then 1 else w)

/-- statistics._get_histogram_bins: bin count `int(round((max-min)/w) + 1)` and
right edges `min + i·w` for `i ∈ [1, count]`; `[min]` when the count is zero. -/
def getHistogramBins (ops : FloatOps) (mn mx sd : ℚ) (count : ℕ) : Except PyErr (List ℚ) := do
  let width ← getBinWidth ops sd count
  let q ← pydiv (mx - mn) (width : ℚ)
  let count2 := pyRound q + 1
  if count2 ≠ 0 then
    .ok ((List.range count2.toNat).map (fun i => ((i : ℚ) + 1) * (width : ℚ) + mn))
  else .ok [mn]

/-- statistics.get_histogram: requires at least two (sorted) data points; each
value is counted in the first bin whose right edge is `≥` the value, and the
`(edge, count)` pairs are returned sorted by edge (the Python `res` dict is keyed
by the pairwise-distinct bin edges, and `sorted(res.iteritems())` sorts them). -/
def getHistogram (ops : FloatOps) (data : List ℚ) : Except PyErr (List (ℚ × ℕ)) := do
  let count := data.length
  if count < 2 then .error .statisticsError
  else
    let mn := data.headD 0
    let mx := data.getLastD 0
    let sd ← stdev ops data
    let bins ← getHistogramBins ops mn mx sd count
    let res := bins.map (fun b =>
      (b, data.countP (fun v => decide (bins.find? (fun c => decide (v ≤ c)) = some b))))
    .ok (res.insertionSort (fun x y => x.1 ≤ y.1))

/-- The snapshot map produced by `Histogram.get` (the constant `kind="histogram"`
entry is omitted). `percentile` pairs each level with its value; `histogram` is
the `(right_edge, count)` list; `n` is the sample count. -/
structure HistogramSnapshot where
  min : ℚ
  max : ℚ
  arithmeticMean : ℚ
  geometricMean : ℚ
  harmonicMean : ℚ
  median : ℚ
  variance : ℚ
  standardDeviation : ℚ
  skewness : ℚ
  kurtosis : ℚ
  percentile : List (ℚ × ℚ)
  histogram : List (ℚ × ℕ)
  n : ℕ
  deriving DecidableEq, Repr

/-- The percentile levels computed by `Histogram.get`: `[50, 75, 90, 95, 99, 99.9]`. -/
def plevels : List ℚ := [50, 75, 90, 95, 99, 999/10]

/-- The `safe` helper inside `Histogram.get`: replace a `StatisticsError` by
`0.0`; any other outcome (success or a different error) passes through. -/
def safeStat (r : Except PyErr ℚ) : Except PyErr ℚ :=
  match r with
  | .error .statisticsError => .ok 0
  | r => r

/-- The `try: get_histogram / except StatisticsError: histogram = [(0, 0)]`
block inside `Histogram.get`. -/
def safeHist (r : Except PyErr (List (ℚ × ℕ))) : Except PyErr (List (ℚ × ℕ)) :=
  match r with
  | .error .statisticsError => .ok [(0, 0)]
  | r => r

/-- Histogram.get over the sorted sample `values` (the reservoir's
`sorted_values`). Statistics are computed in Python's evaluation order:
percentiles, the auto-binned histogram (its `StatisticsError` replaced by
`[(0, 0)]`), then the dict arguments left to right. Each one is wrapped in
`safe`, so a `StatisticsError` becomes `0.0` but any other error propagates out
of `get`. -/
def histogramGet (ops : FloatOps) (values : List ℚ) : Except PyErr HistogramSnapshot := do
  let ps ← plevels.mapM (fun p => safeStat (percentile values p))
  let hist ← safeHist (getHistogram ops values)
  let am ← safeStat (mean values)
  let gm ← safeStat (geometricMean ops values)
  let hm ← safeStat (harmonicMean values)
  let md ← safeStat (median values)
  let vr ← safeStat (variance values)
  let sd ← safeStat (stdev ops values)
  let sk ← safeStat (skewness ops values)
  let ku ← safeStat (kurtosis ops values)
  .ok { min := values.headD 0, max := values.getLastD 0, arithmeticMean := am,
        geometricMean := gm, harmonicMean := hm, median := md, variance := vr,
        standardDeviation := sd, skewness := sk, kurtosis := ku,
        percentile := plevels.zip ps, histogram := hist, n := values.length }

/-- histogram.search_greater: dichotomic search for the first index whose key is
`≥ target`. The Python `while first < last` loop is modelled with explicit fuel;
`last - first` strictly decreases on every iteration, so fuel `len(values)`
(the initial `last - first`) is never exhausted. -/
def searchGreaterAux (values : List (ℚ × ℚ)) (target : ℚ) : ℕ → ℕ → ℕ → ℕ
  | 0, first, _ => first
  | fuel + 1, first, last =>
    if first < last then
      let middle := (first + last) / 2
      if (values.getD middle (0, 0)).1 < target then
        searchGreaterAux values target fuel (middle + 1) last
      else
        searchGreaterAux values target fuel first middle
    else first

/-- histogram.search_greater, entered with `first = 0`, `last = len(values)`. -/
def searchGreater (values : List (ℚ × ℚ)) (target : ℚ) : ℕ :=
  searchGreaterAux values target values.length 0 values.length

/-- histogram.UniformReservoir state: capacity `size`, backing array `vals`
(`_values`, fixed length `size`), observation counter `count`. -/
structure UniformReservoir where
  size : ℕ
  vals : List ℚ
  count : ℕ
  deriving DecidableEq, Repr

/-- UniformReservoir.__init__: `_values = [0] * size`, `count = 0`. -/
def UniformReservoir.init (size : ℕ) : UniformReservoir :=
  ⟨size, List.replicate size 0, 0⟩

/-- UniformReservoir._do_add. The random draw `k` models
`int(random.uniform(0, self.count))`; it is an input of the model, so theorems
quantify over every possible draw. Returns the `changed` boolean and the new
state. -/
def UniformReservoir.doAdd (r : UniformReservoir) (k : ℕ) (value : ℚ) :
    Bool × UniformReservoir :=
  if r.count < r.size then
    (true, { r with vals := r.vals.set r.count value, count := r.count + 1 })
  else if k < r.size then
    (true, { r with vals := r.vals.set k value, count := r.count + 1 })
  else
    (false, { r with count := r.count + 1 })

/-- UniformReservoir._get_values: `_values[:min(count, size)]`. -/
def UniformReservoir.getValues (r : UniformReservoir) : List ℚ :=
  r.vals.take (min r.count r.size)

/-- histogram.SlidingWindowReservoir state: a `collections.deque` with
`maxlen = size`. -/
structure SlidingWindowReservoir where
  size : ℕ
  deque : List ℚ
  deriving DecidableEq, Repr

/-- SlidingWindowReservoir.__init__. -/
def SlidingWindowReservoir.init (size : ℕ) : SlidingWindowReservoir := ⟨size, []⟩

/-- SlidingWindowReservoir._do_add: `deque.append(value)` (a bounded deque
discards from the opposite end when full) and NO return statement, i.e. the
Python method returns `None` — modelled as `none`. -/
def SlidingWindowReservoir.doAdd (r : SlidingWindowReservoir) (value : ℚ) :
    Option Bool × SlidingWindowReservoir :=
  let d := r.deque ++ [value]
  (none, { r with deque := if r.size < d.length then d.drop (d.length - r.size) else d })

/-- SlidingWindowReservoir._get_values: `list(self.deque)`. -/
def SlidingWindowReservoir.getValues (r : SlidingWindowReservoir) : List ℚ :=
  r.deque

/-- histogram.SlidingTimeWindowReservoir state: window width and the
`(timestamp, value)` list. -/
structure SlidingTimeWindowReservoir where
  windowSize : ℚ
  vals : List (ℚ × ℚ)
  deriving DecidableEq, Repr

/-- SlidingTimeWindowReservoir.__init__. -/
def SlidingTimeWindowReservoir.init (windowSize : ℚ) : SlidingTimeWindowReservoir :=
  ⟨windowSize, []⟩

/-- SlidingTimeWindowReservoir.tick: binary-search the first index with
`timestamp ≥ now - window_size` and drop that prefix (the Python
`if idx: self._values = self._values[idx:]`). -/
def SlidingTimeWindowReservoir.tick (r : SlidingTimeWindowReservoir) (now : ℚ) :
    SlidingTimeWindowReservoir :=
  let target := now - r.windowSize
  let idx := searchGreater r.vals target
  if idx ≠ 0 then { r with vals := r.vals.drop idx } else r

/-- SlidingTimeWindowReservoir._do_add: `tick(now)` then append `(now, value)`;
the clock reading `now` is an input of the model. The method has NO return
statement: Python returns `None`. -/
def SlidingTimeWindowReservoir.doAdd (r : SlidingTimeWindowReservoir) (now value : ℚ) :
    Option Bool × SlidingTimeWindowReservoir :=
  let r := r.tick now
  (none, { r with vals := r.vals ++ [(now, value)] })

/-- SlidingTimeWindowReservoir._get_values: `tick(now)` then the stripped values;
returns the values together with the mutated state. -/
def SlidingTimeWindowReservoir.getValues (r : SlidingTimeWindowReservoir) (now : ℚ) :
    List ℚ × SlidingTimeWindowReservoir :=
  let r := r.tick now
  (r.vals.map Prod.snd, r)

/-- ExponentialDecayingReservoir.EPSILON. -/
def EPSILON : ℚ := 1 / 1000000000000

/-- ExponentialDecayingReservoir.RESCALE_THRESHOLD (seconds). -/
def RESCALE_THRESHOLD : ℚ := 3600

/-- histogram.ExponentialDecayingReservoir state: the `(priority, value)` list
`vals` is kept sorted by priority. `alpha`, `startTime` and `nextScaleTime`
mirror the Python attributes. -/
structure ExpDecayingReservoir where
  size : ℕ
  alpha : ℚ
  startTime : ℚ
  count : ℕ
  nextScaleTime : ℚ
  vals : List (ℚ × ℚ)
  deriving DecidableEq, Repr

/-- ExponentialDecayingReservoir.__init__ at clock reading `t0`. -/
def ExpDecayingReservoir.init (size : ℕ) (alpha t0 : ℚ) : ExpDecayingReservoir :=
  ⟨size, alpha, t0, 0, t0 + RESCALE_THRESHOLD, []⟩

/-- ExponentialDecayingReservoir._lookup: binary-search `timestamp` and accept
the slot when its key is within `EPSILON`. -/
def edLookup (vals : List (ℚ × ℚ)) (timestamp : ℚ) : Option ℕ :=
  let idx := searchGreater vals timestamp
  if idx < vals.length ∧ |(vals.getD idx (0, 0)).1 - timestamp| < EPSILON then some idx
  else none

/-- ExponentialDecayingReservoir._put: replace the entry found by `_lookup` or
append a new one. -/
def edPut (vals : List (ℚ × ℚ)) (timestamp value : ℚ) : List (ℚ × ℚ) :=
  match edLookup vals timestamp with
  | some idx => vals.set idx (timestamp, value)
  | none => vals ++ [(timestamp, value)]

/-- The `self._values.sort(key=self.key)` call: stable ascending sort by the
first component (the priority). -/
def sortByKey (vals : List (ℚ × ℚ)) : List (ℚ × ℚ) :=
  vals.insertionSort (fun a b => a.1 ≤ b.1)

/-- ExponentialDecayingReservoir.rescale at clock reading `now`. `factor` models
`math.exp(-alpha * (now - start_time))`, which is transcendental, hence an input
of the model. When `now > next_scale_time`, every stored priority is multiplied
by `factor` and re-`_put` into a fresh list, `count` becomes the surviving entry
count and the clocks advance. -/
def ExpDecayingReservoir.rescale (r : ExpDecayingReservoir) (now factor : ℚ) :
    ExpDecayingReservoir :=
  if r.nextScaleTime < now then
    let newVals := r.vals.foldl (fun acc kv => edPut acc (kv.1 * factor) kv.2) []
    { r with vals := newVals, count := newVals.length, startTime := now,
             nextScaleTime := now + RESCALE_THRESHOLD }
  else r

/-- ExponentialDecayingReservoir._do_add. `weightedTime` models
`weight(now - start_time) / random.random()` (transcendental numerator, random
denominator: an input of the model). After `rescale`, under capacity the sample
is `_put` and the list re-sorted; at capacity the minimum-priority entry
(`_values[0]`, an `IndexError` on an empty list) is replaced exactly when the
new priority is greater and not already present (the `first = self._values[0][0]`
subscript raises `IndexError` on an empty list, modelled by the emptiness
test). Returns `changed` and the new state. -/
def ExpDecayingReservoir.doAdd (r : ExpDecayingReservoir) (now factor weightedTime value : ℚ) :
    Except PyErr (Bool × ExpDecayingReservoir) :=
  let r := r.rescale now factor
  if r.count < r.size then
    .ok (true, { r with vals := sortByKey (edPut r.vals weightedTime value),
                        count := r.count + 1 })
  else if r.vals = [] then
    .error .indexError
  else
    let first := (r.vals.headD (0, 0)).1
    if first < weightedTime then
      match edLookup r.vals weightedTime with
      | some _ => .ok (false, { r with count := r.count + 1 })
      | none => .ok (true, { r with vals := sortByKey (r.vals.set 0 (weightedTime, value)),
                                    count := r.count + 1 })
    else .ok (false, { r with count := r.count + 1 })

/-- ExponentialDecayingReservoir._get_values: `_values[:max(count, size)]`
stripped to the stored values. -/
def ExpDecayingReservoir.getValues (r : ExpDecayingReservoir) : List ℚ :=
  (r.vals.take (max r.count r.size)).map Prod.snd

/-- Fold a sequence of `add` calls over a uniform reservoir; each element of the
list carries the random draw and the value of one call. -/
def UniformReservoir.applyAdds (r : UniformReservoir) : List (ℕ × ℚ) → UniformReservoir
  | [] => r
  | (k, x) :: rest => ((r.doAdd k x).2).applyAdds rest

/-- Fold a sequence of `add` calls over a sliding count window reservoir. -/
def SlidingWindowReservoir.applyAdds (r : SlidingWindowReservoir) :
    List ℚ → SlidingWindowReservoir
  | [] => r
  | x :: rest => ((r.doAdd x).2).applyAdds rest

/-- Fold a sequence of `add` calls over an exponentially-decaying reservoir; each
element carries the clock reading, the rescale factor, the weighted time and the
value of one call. -/
def ExpDecayingReservoir.applyAdds (r : ExpDecayingReservoir) :
    List (ℚ × ℚ × ℚ × ℚ) → Except PyErr ExpDecayingReservoir
  | [] => .ok r
  | (now, f, wt, x) :: rest => do ((← r.doAdd now f wt x).2).applyAdds rest

/-- meter.EWMA state. `alpha` is `1 - exp(-interval/(60*period))`
(`compute_alpha`), transcendental, hence an input of the model at construction. -/
structure EWMA where
  timePeriod : ℚ
  tickInterval : ℚ
  alpha : ℚ
  rate : ℚ
  value : ℤ
  initialized : Bool
  deriving DecidableEq, Repr

/-- EWMA.__init__: `rate = 0.0`, `value = 0`, not initialized. -/
def EWMA.init (period interval alpha : ℚ) : EWMA :=
  ⟨period, interval, alpha, 0, 0, false⟩

/-- EWMA.update: add `int(value)` to the accumulator. -/
def EWMA.update (e : EWMA) (v : ℤ) : EWMA := { e with value := e.value + v }

/-- EWMA.tick: instantaneous rate `value / tick_interval` (a `ZeroDivisionError`
when the interval is zero), folded into `rate` (the first tick sets it), and the
accumulator is reset. -/
def EWMA.tick (e : EWMA) : Except PyErr EWMA := do
  let instant ← pydiv (e.value : ℚ) e.tickInterval
  if e.initialized then
    .ok { e with rate := e.rate + e.alpha * (instant - e.rate), value := 0 }
  else
    .ok { e with initialized := true, rate := instant, value := 0 }

/-- meter.Meter state: the four EWMAs (1, 5, 15 minutes and one day), the
creation time, the latest tick time and the observation count. -/
structure Meter where
  tickInterval : ℚ
  m1 : EWMA
  m5 : EWMA
  m15 : EWMA
  day : EWMA
  startedOn : ℚ
  latestTick : ℚ
  count : ℤ
  deriving DecidableEq, Repr

/-- Meter.__init__ at clock reading `now`: fresh EWMAs with periods 1, 5, 15 and
60·24 minutes (each alpha passed as a model input), `started_on = latest_tick =
now`, `count = 0`. -/
def Meter.init (tickInterval now a1 a5 a15 aday : ℚ) : Meter :=
  ⟨tickInterval,
   EWMA.init 1 tickInterval a1, EWMA.init 5 tickInterval a5,
   EWMA.init 15 tickInterval a15, EWMA.init (60 * 24) tickInterval aday,
   now, now, 0⟩

/-- One iteration of the `tick_all` inner loop: tick all four EWMAs. -/
def Meter.tickOnce (m : Meter) : Except PyErr Meter := do
  let e1 ← m.m1.tick
  let e5 ← m.m5.tick
  let e15 ← m.m15.tick
  let ed ← m.day.tick
  .ok { m with m1 := e1, m5 := e5, m15 := e15, day := ed }

/-- Meter.tick_all: tick all the EWMAs the given number of times. -/
def Meter.tickAll (m : Meter) : ℕ → Except PyErr Meter
  | 0 => .ok m
  | t + 1 => do (← m.tickOnce).tickAll t

/-- Meter.tick at clock reading `now`: when more than one interval has elapsed
since the latest tick, tick `int(elapsed / tick_interval)` times and advance
`latest_tick`. -/
def Meter.tick (m : Meter) (now : ℚ) : Except PyErr Meter :=
  let elapsed := now - m.latestTick
  if m.tickInterval < elapsed then do
    let q ← pydiv elapsed m.tickInterval
    let m2 ← m.tickAll (pyTrunc q).toNat
    .ok { m2 with latestTick := now }
  else .ok m

/-- The snapshot map produced by `Meter.get` (the constant `kind="meter"` entry
is omitted). -/
structure MeterSnapshot where
  count : ℤ
  mean : ℚ
  one : ℚ
  five : ℚ
  fifteen : ℚ
  day : ℚ
  deriving DecidableEq, Repr

/-- Meter.get at clock reading `now` (the `time.time()` calls inside `tick` and
inside `get` are modelled by the same instant): tick, then return the counts and
rates, with `mean = count / (now - started_on)` — a `ZeroDivisionError` when no
time has elapsed since creation. -/
def Meter.get (m : Meter) (now : ℚ) : Except PyErr MeterSnapshot := do
  let m ← m.tick now
  let mn ← pydiv (m.count : ℚ) (now - m.startedOn)
  .ok ⟨m.count, mn, m.m1.rate, m.m5.rate, m.m15.rate, m.day.rate⟩

/-- The construction parameters of a reservoir, deciding `same_kind`: two
reservoirs are of the same kind iff they are the same variant built with the
same parameters (`size`, `window_size`, or `(size, alpha)`). -/
inductive ReservoirParams
  | uniform (size : ℕ)
  | slidingWindow (size : ℕ)
  | slidingTimeWindow (windowSize : ℚ)
  | expDecaying (size : ℕ) (alpha : ℚ)
  deriving DecidableEq, Repr

/-- A registered instrument, as far as the registry's structural operations are
concerned: a histogram is identified by its reservoir's construction
parameters. -/
inductive Metric
  | histogram (rp : ReservoirParams)
  | counter
  | gauge
  | meterMetric (tickInterval : ℚ)
  deriving DecidableEq, Repr

/-- The registry's global state: `REGISTRY` (name → instrument, keys unique) and
`TAGS` (tag → set of names); dicts and sets are modelled as association lists
and duplicate-free lists. -/
structure Registry where
  registry : List (String × Metric)
  tags : List (String × List String)
  deriving DecidableEq, Repr

/-- `REGISTRY[name]` lookup. -/
def Registry.lookup (st : Registry) (name : String) : Option Metric :=
  (st.registry.find? (fun p => p.1 == name)).map Prod.snd

/-- metrics.new_metric: `DuplicateMetricError` when the name is already bound,
otherwise bind it and return the new instrument. -/
def newMetric (st : Registry) (name : String) (m : Metric) :
    Except PyErr (Metric × Registry) :=
  match st.lookup name with
  | some _ => .error .duplicateMetricError
  | none => .ok (m, { st with registry := st.registry ++ [(name, m)] })

/-- metrics.delete_metric: pop the name from `REGISTRY` (returning the old
instrument, or `None`), and remove the name from every tag's set
(`if name in tags: tags.remove(name)`). Nothing else is touched: in particular
tags whose set becomes empty are NOT removed from `TAGS`. -/
def deleteMetric (st : Registry) (name : String) : Option Metric × Registry :=
  (st.lookup name,
   { registry := st.registry.filter (fun p => !(p.1 == name)),
     tags := st.tags.map (fun t => (t.1, if name ∈ t.2 then t.2.erase name else t.2)) })

/-- metrics.get_or_create_histogram: build a reservoir from the given spec and
try `new_histogram`; on `DuplicateMetricError`, return the existing metric
when it is a histogram whose reservoir is `same_kind` as the requested one,
else re-raise `DuplicateMetricError`. -/
def getOrCreateHistogram (st : Registry) (name : String) (rp : ReservoirParams) :
    Except PyErr (Metric × Registry) :=
  match newMetric st name (.histogram rp) with
  | .ok r => .ok r
  | .error _ =>
    match st.lookup name with
    | none => .error .invalidMetricError
    | some m =>
      match m with
      | .histogram rp2 =>
        if rp2 = rp then .ok (m, st) else .error .duplicateMetricError
      | _ => .error .duplicateMetricError

/-! Helper lemmas shared by several claims. -/

/-- `floorQ` computes the mathematical floor. -/
theorem floorQ_eq_floor (q : ℚ) : floorQ q = ⌊q⌋ := by
  rw [Rat.floor_def]
  exact Int.fdiv_eq_ediv q.num (Int.natCast_nonneg q.den)

/-- On nonnegative arguments, Python `int()` truncation is the floor. -/
theorem pyTrunc_of_nonneg {q : ℚ} (h : 0 ≤ q) : pyTrunc q = ⌊q⌋ := by
  rw [pyTrunc, if_neg (not_lt.mpr h), floorQ_eq_floor]

/-- `Except` bind on a success. -/
theorem ebind_ok {α β : Type} (a : α) (f : α → Except PyErr β) :
    (Except.ok a >>= f) = f a := rfl

/-- `Except` bind on an error. -/
theorem ebind_err {α β : Type} (e : PyErr) (f : α → Except PyErr β) :
    (Except.error e >>= f) = Except.error e := rfl

/-!
C10. There exists a sorted non-empty data list and a percentile level for which
`idx = (p/100)·n − 0.5` equals `n` exactly, the bounds check passes, and the
access `data[int(idx)]` raises an `IndexError` rather than a statistics error.
-/

/-- C10: for `data = [1, 2]` (so `n = 2`) and `p = 125`, the index
`(125/100)·2 − 0.5` equals `2 = n` exactly, the bounds check `idx < 0 ∨ idx > n`
does not fire, and `percentile` raises an `IndexError` (the out-of-range access
`data[2]`), not a statistics error. -/
theorem percentile_index_error_exists :
    ((125 : ℚ) / 100 * 2 - 1/2 = 2) ∧
    ¬(((125 : ℚ) / 100 * 2 - 1/2) < 0 ∨ (2 : ℚ) < (125 : ℚ) / 100 * 2 - 1/2) ∧
    percentile [1, 2] 125 = .error .indexError :=
  ⟨by norm_num, by norm_num, by with_unfolding_all rfl⟩

/-!
C4. The claim states that `percentile(data, p)` always returns `data[⌊idx⌋]`
when the bounds check `idx < 0 ∨ idx > n` passes. That fails when `idx = n`
exactly: the check passes but the access `data[int(idx)] = data[n]` is out of
range and raises an `IndexError` (this is C10's observation). The claim is
otherwise accurate, including both concrete examples.
-/

/-- C4 counterexample: at `data = [5, 7]`, `p = 125` the bounds check passes
(`idx = 2 = n` is neither `< 0` nor `> n`), so the claim promises the value
`data[⌊idx⌋]`; instead the call raises an `IndexError`. -/
theorem percentile_claim_false :
    ¬(((125 : ℚ) / 100 * 2 - 1/2) < 0 ∨ (2 : ℚ) < (125 : ℚ) / 100 * 2 - 1/2) ∧
    percentile [5, 7] 125 = .error .indexError :=
  ⟨by norm_num, by with_unfolding_all rfl⟩

/-- C4 (amended): `percentile(data, p)` computes `idx = (p/100)·n − 0.5` and
raises a statistics error iff `idx < 0` or `idx > n`; when `0 ≤ idx < n` it
returns `data[⌊idx⌋]`; when `idx = n` exactly the bounds check passes but the
access `data[int(idx)]` is out of range and raises an `IndexError`. In
particular `percentile([1.5,2.5,2.5,2.75,3.25,4.75], 50) = 2.5` and
`percentile([1.5,2.5,2.5,2.75,3.25,4.75], 1)` fails with a statistics error. -/
theorem percentile_spec_corrected (data : List ℚ) (p : ℚ) :
    ((p / 100 * (data.length : ℚ) - 1/2 < 0 ∨
        (data.length : ℚ) < p / 100 * (data.length : ℚ) - 1/2) →
      percentile data p = .error .statisticsError)
    ∧ (0 ≤ p / 100 * (data.length : ℚ) - 1/2 →
        p / 100 * (data.length : ℚ) - 1/2 < (data.length : ℚ) →
      percentile data p =
        .ok (data.getD (⌊p / 100 * (data.length : ℚ) - 1/2⌋).toNat 0))
    ∧ (p / 100 * (data.length : ℚ) - 1/2 = (data.length : ℚ) →
      percentile data p = .error .indexError)
    ∧ percentile [3/2, 5/2, 5/2, 11/4, 13/4, 19/4] 50 = .ok (5/2)
    ∧ percentile [3/2, 5/2, 5/2, 11/4, 13/4, 19/4] 1 = .error .statisticsError := by
  refine ⟨?_, ?_, ?_, by with_unfolding_all rfl, by with_unfolding_all rfl⟩
  · intro h
    simp only [percentile]
    rw [if_pos h]
  · intro h0 hlt
    have hj0 : 0 ≤ ⌊p / 100 * (data.length : ℚ) - 1/2⌋ := Int.floor_nonneg.mpr h0
    have hjlt : ⌊p / 100 * (data.length : ℚ) - 1/2⌋ < (data.length : ℤ) := by
      rw [Int.floor_lt]
      push_cast
      exact hlt
    simp only [percentile]
    rw [if_neg (by push_neg; exact ⟨h0, hlt.le⟩), pyTrunc_of_nonneg h0]
    simp only [pyGet]
    rw [if_neg (not_lt.mpr hj0), if_pos ⟨hj0, (Int.toNat_lt hj0).mpr hjlt⟩]
  · intro heq
    have h0 : (0 : ℚ) ≤ p / 100 * (data.length : ℚ) - 1/2 := by
      rw [heq]
      exact Nat.cast_nonneg _
    simp only [percentile]
    rw [if_neg (by push_neg; exact ⟨h0, le_of_eq heq⟩), pyTrunc_of_nonneg h0, heq]
    simp only [pyGet, Int.floor_natCast]
    rw [if_neg (not_lt.mpr (by positivity)), if_neg]
    simp

/-- C4 witness: the in-range clause applied at `data = [4]`, `p = 50`
(`idx = 0`), returning `data[0]`. -/
theorem percentile_spec_corrected_witness :
    percentile [(4 : ℚ)] 50 =
      .ok (([(4 : ℚ)]).getD (⌊(50 : ℚ) / 100 * (([(4 : ℚ)]).length : ℚ) - 1/2⌋).toNat 0) :=
  (percentile_spec_corrected [4] 50).2.1 (by norm_num) (by norm_num)

/-!
C2. The spec says skewness and kurtosis return `0.0` whenever the standard
deviation is zero. The code has no such guard: it divides each `(x-μ)^k` by
`σ^k`, so on constant data (σ = 0) Python raises `ZeroDivisionError`. The
repository's own tests (`test_statistics.test_skewness` / `test_kurtosis`)
expect `skewness([1.0, 1.0, 1.0]) = 0.0` and `kurtosis([1.0, 1.0, 1.0]) = 0.0`,
so the claim matches the intent and the code is a slip: a code bug.
-/

/-- C2: on the failing input `[1.0, 1.0, 1.0]` of the repository's own test
suite, `skewness` and `kurtosis` raise `ZeroDivisionError` instead of returning
`0.0`: the standard deviation is `0` (for any model of `math.sqrt` that is exact
at `0`, as IEEE arithmetic is) and the per-element division `(x-μ)³/σ³` divides
by zero. -/
theorem skewness_kurtosis_zero_sd_bug (ops : FloatOps) (h : ops.sqrt 0 = 0) :
    skewness ops [1, 1, 1] = .error .zeroDivisionError ∧
    kurtosis ops [1, 1, 1] = .error .zeroDivisionError := by
  have hv : variance [1, 1, 1] = .ok 0 := by with_unfolding_all rfl
  have hs : stdev ops [1, 1, 1] = .ok 0 := by
    simp only [stdev, hv, ebind_ok, h]
  have hm : mean [1, 1, 1] = .ok 1 := by with_unfolding_all rfl
  constructor
  · simp only [skewness, hs, hm, ebind_ok, List.mapM_cons, pydiv]
    simp [ebind_err]
  · simp only [kurtosis, hs, hm, ebind_ok, List.mapM_cons, pydiv]
    simp [ebind_err]

/-- C2 witness: the bug theorem applied to the concrete `ratOps` instance, whose
`sqrt` is exact at `0`. -/
theorem skewness_kurtosis_zero_sd_bug_witness :
    skewness ratOps [1, 1, 1] = .error .zeroDivisionError ∧
    kurtosis ratOps [1, 1, 1] = .error .zeroDivisionError :=
  skewness_kurtosis_zero_sd_bug ratOps rfl

/-- Taking one element past an in-range `set` position splits off the new
element. -/
theorem take_set_succ (l : List ℚ) (i : ℕ) (x : ℚ) (h : i < l.length) :
    (l.set i x).take (i + 1) = l.take i ++ [x] := by
  induction l generalizing i with
  | nil => simp at h
  | cons b bs ih =>
    cases i with
    | zero => simp
    | succ j => simp_all [List.set, List.take]

/-- `set` below the cut commutes with `take`. -/
theorem set_take_comm (l : List ℚ) (n i : ℕ) (x : ℚ) (h : i < n) :
    (l.set i x).take n = (l.take n).set i x := by
  induction l generalizing i n with
  | nil => simp
  | cons b bs ih =>
    cases i with
    | zero =>
      cases n with
      | zero => omega
      | succ m => simp [List.set, List.take]
    | succ j =>
      cases n with
      | zero => omega
      | succ m =>
        simp only [List.set, List.take, List.cons.injEq, true_and]
        exact ih m j (by omega)

/-!
C5. The uniform reservoir's add/values behaviour, with the random draw
`k = int(random.uniform(0, count))` as a model input.
-/

/-- C5: for a uniform reservoir of capacity `N` whose backing array has length
`N`, `add(x)` stores `x` at position `count` when `count < N` (appending it to
`values()`), otherwise overwrites slot `k` exactly when the draw `k` satisfies
`k < N`; in every case `count` is incremented, and `values()` returns the first
`min(count, N)` slots. -/
theorem uniform_reservoir_add_spec (r : UniformReservoir) (k : ℕ) (x : ℚ)
    (h : r.vals.length = r.size) :
    (r.doAdd k x).2.count = r.count + 1
    ∧ r.getValues = r.vals.take (min r.count r.size)
    ∧ (r.count < r.size →
        r.doAdd k x = (true, ⟨r.size, r.vals.set r.count x, r.count + 1⟩)
        ∧ (r.doAdd k x).2.getValues = r.getValues ++ [x])
    ∧ (r.size ≤ r.count → k < r.size →
        r.doAdd k x = (true, ⟨r.size, r.vals.set k x, r.count + 1⟩)
        ∧ (r.doAdd k x).2.getValues = r.getValues.set k x)
    ∧ (r.size ≤ r.count → r.size ≤ k →
        r.doAdd k x = (false, ⟨r.size, r.vals, r.count + 1⟩)
        ∧ (r.doAdd k x).2.getValues = r.getValues) := by
  refine ⟨?_, rfl, ?_, ?_, ?_⟩
  · simp only [UniformReservoir.doAdd]
    split_ifs <;> rfl
  · intro hc
    have hlt : r.count < r.vals.length := by omega
    refine ⟨by simp only [UniformReservoir.doAdd, if_pos hc], ?_⟩
    simp only [UniformReservoir.doAdd, if_pos hc, UniformReservoir.getValues]
    rw [(by omega : min (r.count + 1) r.size = r.count + 1),
        (by omega : min r.count r.size = r.count), take_set_succ _ _ _ hlt]
  · intro hc hk
    have hnc : ¬ r.count < r.size := not_lt.mpr hc
    refine ⟨by simp only [UniformReservoir.doAdd, if_neg hnc, if_pos hk], ?_⟩
    simp only [UniformReservoir.doAdd, if_neg hnc, if_pos hk, UniformReservoir.getValues]
    rw [(by omega : min (r.count + 1) r.size = r.size),
        (by omega : min r.count r.size = r.size), set_take_comm _ _ _ _ hk]
  · intro hc hk
    have hnc : ¬ r.count < r.size := not_lt.mpr hc
    have hnk : ¬ k < r.size := not_lt.mpr hk
    refine ⟨by simp only [UniformReservoir.doAdd, if_neg hnc, if_neg hnk], ?_⟩
    simp only [UniformReservoir.doAdd, if_neg hnc, if_neg hnk, UniformReservoir.getValues]
    rw [(by omega : min (r.count + 1) r.size = r.size),
        (by omega : min r.count r.size = r.size)]

/-- C5 witness: the under-capacity clause at a fresh reservoir of capacity 2. -/
theorem uniform_reservoir_add_spec_witness :
    UniformReservoir.doAdd ⟨2, [0, 0], 0⟩ 0 5 =
      (true, ⟨2, ([0, 0] : List ℚ).set 0 5, 0 + 1⟩) ∧
    (UniformReservoir.doAdd ⟨2, [0, 0], 0⟩ 0 5).2.getValues =
      (⟨2, [0, 0], 0⟩ : UniformReservoir).getValues ++ [5] :=
  (uniform_reservoir_add_spec ⟨2, [0, 0], 0⟩ 0 5 rfl).2.2.1 (by decide)

/-!
C1. The claim says `add(x)` returns a boolean that is true iff the call changed
the reservoir's stored contents, for every variant. Two variants violate it:
`SlidingWindowReservoir._do_add` and `SlidingTimeWindowReservoir._do_add` have
no return statement at all — they return `None` even though every such call
appends the sample. (For the uniform and exponential-decay variants the boolean
reports whether the sample was written, which can be `True` even when the
written slot already held an equal value.)
-/

/-- C1 counterexample: adding to an empty sliding count window changes the
stored contents (`[] → [1]`) but `add` returns `None`, not the boolean `True`
the claim promises. -/
theorem add_return_value_claim_false :
    (SlidingWindowReservoir.doAdd ⟨3, []⟩ 1).1 = none ∧
    (SlidingWindowReservoir.doAdd ⟨3, []⟩ 1).2.getValues = [1] ∧
    (⟨3, []⟩ : SlidingWindowReservoir).getValues = [] :=
  ⟨rfl, by with_unfolding_all rfl, rfl⟩

/-- C1 (amended): the uniform and exponential-decay reservoirs' `add` returns a
boolean that is true iff the call wrote the sample into the backing store
(uniform: `count < size` or the draw `k < size`; exponential decay, after
rescaling: under capacity, or the new priority beats the minimum and is not
already present). The sliding count window and sliding time window reservoirs'
`_do_add` returns `None` while unconditionally appending the sample (the count
window then truncated to the newest `size` entries, the time window after
expiring old entries). -/
theorem add_return_value_corrected :
    (∀ (r : UniformReservoir) (k : ℕ) (x : ℚ),
        (r.doAdd k x).1 = true ↔ (r.count < r.size ∨ k < r.size))
    ∧ (∀ (r : ExpDecayingReservoir) (now f wt x : ℚ) (b : Bool)
          (r2 : ExpDecayingReservoir),
        r.doAdd now f wt x = .ok (b, r2) →
        (b = true ↔
          ((r.rescale now f).count < (r.rescale now f).size ∨
           ((((r.rescale now f).vals.headD (0, 0)).1 < wt) ∧
            edLookup (r.rescale now f).vals wt = none))))
    ∧ (∀ (r : SlidingWindowReservoir) (x : ℚ),
        (r.doAdd x).1 = none ∧
        (r.doAdd x).2.deque =
          (if r.deque.length + 1 ≤ r.size then r.deque ++ [x]
           else (r.deque ++ [x]).drop (r.deque.length + 1 - r.size)))
    ∧ (∀ (r : SlidingTimeWindowReservoir) (now x : ℚ),
        (r.doAdd now x).1 = none ∧
        (r.doAdd now x).2.vals = (r.tick now).vals ++ [(now, x)]) := by
  refine ⟨?_, ?_, ?_, fun r now x => ⟨rfl, rfl⟩⟩
  · intro r k x
    simp only [UniformReservoir.doAdd]
    split_ifs with h1 h2
    · simp [h1]
    · simp [h2]
    · simp [h1, h2]
  · intro r now f wt x b r2 hadd
    simp only [ExpDecayingReservoir.doAdd] at hadd
    set r1 := r.rescale now f with hr1
    by_cases hc : r1.count < r1.size
    · rw [if_pos hc] at hadd
      simp only [Except.ok.injEq, Prod.mk.injEq] at hadd
      rw [← hadd.1]
      exact iff_of_true rfl (Or.inl hc)
    · rw [if_neg hc] at hadd
      by_cases hnil : r1.vals = []
      · rw [if_pos hnil] at hadd
        exact absurd hadd (by simp)
      · rw [if_neg hnil] at hadd
        by_cases hlt : (r1.vals.headD (0, 0)).1 < wt
        · rw [if_pos hlt] at hadd
          cases hlk : edLookup r1.vals wt with
          | some i =>
            rw [hlk] at hadd
            simp only [Except.ok.injEq, Prod.mk.injEq] at hadd
            rw [← hadd.1]
            refine iff_of_false (by simp) ?_
            rintro (h | ⟨h1, h2⟩)
            · exact hc h
            · exact Option.noConfusion h2
          | none =>
            rw [hlk] at hadd
            simp only [Except.ok.injEq, Prod.mk.injEq] at hadd
            rw [← hadd.1]
            exact iff_of_true rfl (Or.inr ⟨hlt, rfl⟩)
        · rw [if_neg hlt] at hadd
          simp only [Except.ok.injEq, Prod.mk.injEq] at hadd
          rw [← hadd.1]
          refine iff_of_false (by simp) ?_
          rintro (h | ⟨h1, h2⟩)
          · exact hc h
          · exact hlt h1
  · intro r x
    refine ⟨rfl, ?_⟩
    simp only [SlidingWindowReservoir.doAdd, List.length_append, List.length_cons,
      List.length_nil]
    by_cases hc : r.deque.length + 1 ≤ r.size
    · rw [if_neg (by omega), if_pos hc]
    · rw [if_pos (by omega), if_neg hc]

/-- C1 witness: the exponential-decay clause applied to a concrete
under-capacity add. -/
theorem add_return_value_corrected_witness :
    true = true ↔
      (((ExpDecayingReservoir.init 2 1 0).rescale 1 1).count <
         ((ExpDecayingReservoir.init 2 1 0).rescale 1 1).size ∨
       ((((ExpDecayingReservoir.init 2 1 0).rescale 1 1).vals.headD (0, 0)).1 < 3/2 ∧
        edLookup ((ExpDecayingReservoir.init 2 1 0).rescale 1 1).vals (3/2) = none)) :=
  add_return_value_corrected.2.1 (ExpDecayingReservoir.init 2 1 0) 1 1 (3/2) 7 true
    ⟨2, 1, 0, 1, 3600, [(3/2, 7)]⟩ (by with_unfolding_all rfl)

/-!
C9. The bounded-memory invariant: `len(values()) ≤ capacity` after every
sequence of `add` calls, for the capacity-configured reservoirs.
-/

/-- The uniform reservoir never exposes more than `size` values. -/
theorem uniform_getValues_length_le (r : UniformReservoir) :
    r.getValues.length ≤ r.size := by
  simp only [UniformReservoir.getValues, List.length_take]
  omega

/-- `UniformReservoir.doAdd` preserves the capacity field. -/
theorem uniform_doAdd_size (r : UniformReservoir) (k : ℕ) (x : ℚ) :
    (r.doAdd k x).2.size = r.size := by
  simp only [UniformReservoir.doAdd]
  split_ifs <;> rfl

/-- Folding adds preserves the uniform reservoir's capacity field. -/
theorem uniform_applyAdds_size (ops : List (ℕ × ℚ)) :
    ∀ r : UniformReservoir, (r.applyAdds ops).size = r.size := by
  induction ops with
  | nil => intro r; rfl
  | cons op rest ih =>
    intro r
    obtain ⟨k, x⟩ := op
    rw [UniformReservoir.applyAdds, ih, uniform_doAdd_size]

/-- After any single add, the sliding count window holds at most `size`
values. -/
theorem sliding_doAdd_deque_le (r : SlidingWindowReservoir) (x : ℚ) :
    (r.doAdd x).2.deque.length ≤ r.size := by
  simp only [SlidingWindowReservoir.doAdd]
  split_ifs with h
  · simp only [List.length_drop]
    omega
  · simp only [List.length_append, List.length_cons, List.length_nil] at h ⊢
    omega

/-- Folding adds over a sliding count window keeps `len(deque) ≤ size`. -/
theorem sliding_applyAdds_le (ops : List ℚ) :
    ∀ r : SlidingWindowReservoir, r.deque.length ≤ r.size →
      (r.applyAdds ops).deque.length ≤ (r.applyAdds ops).size ∧
      (r.applyAdds ops).size = r.size := by
  induction ops with
  | nil => exact fun r h => ⟨h, rfl⟩
  | cons x rest ih =>
    intro r h
    rw [SlidingWindowReservoir.applyAdds]
    exact ih (r.doAdd x).2 (sliding_doAdd_deque_le r x)

/-- `_put` grows the list by at most one entry. -/
theorem edPut_length_le (vals : List (ℚ × ℚ)) (t v : ℚ) :
    (edPut vals t v).length ≤ vals.length + 1 := by
  simp only [edPut]
  cases h : edLookup vals t <;> simp [h]

/-- `sortByKey` preserves length. -/
theorem sortByKey_length (l : List (ℚ × ℚ)) : (sortByKey l).length = l.length :=
  List.length_insertionSort _ l

/-- The rescale loop re-`_put`s every entry into a fresh list, so the result has
at most `acc + l` many entries. -/
theorem edRescaleFold_length_le (f : ℚ) (l : List (ℚ × ℚ)) :
    ∀ acc : List (ℚ × ℚ),
      (l.foldl (fun a kv => edPut a (kv.1 * f) kv.2) acc).length ≤ acc.length + l.length := by
  induction l with
  | nil => simp
  | cons kv rest ih =>
    intro acc
    rw [List.foldl_cons]
    have h1 := ih (edPut acc (kv.1 * f) kv.2)
    have h2 := edPut_length_le acc (kv.1 * f) kv.2
    simp only [List.length_cons]
    omega

/-- The internal well-formedness of an exponentially-decaying reservoir: the
stored list never exceeds the observation count nor the capacity. -/
def EDInv (r : ExpDecayingReservoir) : Prop :=
  r.vals.length ≤ r.count ∧ r.vals.length ≤ r.size

/-- `rescale` preserves the invariant and the capacity. -/
theorem ed_rescale_inv (r : ExpDecayingReservoir) (now f : ℚ) (h : EDInv r) :
    EDInv (r.rescale now f) ∧ (r.rescale now f).size = r.size := by
  rw [ExpDecayingReservoir.rescale]
  split_ifs with hc
  · dsimp only [EDInv]
    have h1 := edRescaleFold_length_le f r.vals []
    simp only [List.length_nil, Nat.zero_add] at h1
    exact ⟨⟨le_refl _, le_trans h1 h.2⟩, rfl⟩
  · exact ⟨h, rfl⟩

/-- A successful `_do_add` preserves the invariant and the capacity. -/
theorem ed_doAdd_inv (r : ExpDecayingReservoir) (now f wt x : ℚ) (b : Bool)
    (r2 : ExpDecayingReservoir) (h : EDInv r)
    (hadd : r.doAdd now f wt x = .ok (b, r2)) : EDInv r2 ∧ r2.size = r.size := by
  obtain ⟨h1, hsz⟩ := ed_rescale_inv r now f h
  simp only [ExpDecayingReservoir.doAdd] at hadd
  set r1 := r.rescale now f with hr1
  by_cases hc : r1.count < r1.size
  · rw [if_pos hc] at hadd
    simp only [Except.ok.injEq, Prod.mk.injEq] at hadd
    rw [← hadd.2]
    dsimp only [EDInv]
    have hput := edPut_length_le r1.vals wt x
    have hl := h1.1
    have hl2 := h1.2
    refine ⟨⟨?_, ?_⟩, hsz⟩
    · rw [sortByKey_length]
      omega
    · rw [sortByKey_length]
      omega
  · rw [if_neg hc] at hadd
    by_cases hnil : r1.vals = []
    · rw [if_pos hnil] at hadd
      exact absurd hadd (by simp)
    · rw [if_neg hnil] at hadd
      by_cases hlt : (r1.vals.headD (0, 0)).1 < wt
      · rw [if_pos hlt] at hadd
        cases hlk : edLookup r1.vals wt with
        | some i =>
          rw [hlk] at hadd
          simp only [Except.ok.injEq, Prod.mk.injEq] at hadd
          rw [← hadd.2]
          dsimp only [EDInv]
          exact ⟨⟨le_trans h1.1 (by omega), h1.2⟩, hsz⟩
        | none =>
          rw [hlk] at hadd
          simp only [Except.ok.injEq, Prod.mk.injEq] at hadd
          rw [← hadd.2]
          dsimp only [EDInv]
          refine ⟨⟨?_, ?_⟩, hsz⟩
          · rw [sortByKey_length, List.length_set]
            exact le_trans h1.1 (by omega)
          · rw [sortByKey_length, List.length_set]
            exact h1.2
      · rw [if_neg hlt] at hadd
        simp only [Except.ok.injEq, Prod.mk.injEq] at hadd
        rw [← hadd.2]
        dsimp only [EDInv]
        exact ⟨⟨le_trans h1.1 (by omega), h1.2⟩, hsz⟩

/-- Folding adds preserves the invariant and the capacity. -/
theorem ed_applyAdds_inv (ops : List (ℚ × ℚ × ℚ × ℚ)) :
    ∀ r r2 : ExpDecayingReservoir, EDInv r → r.applyAdds ops = .ok r2 →
      EDInv r2 ∧ r2.size = r.size := by
  induction ops with
  | nil =>
    intro r r2 h hap
    simp only [ExpDecayingReservoir.applyAdds, Except.ok.injEq] at hap
    rw [← hap]
    exact ⟨h, rfl⟩
  | cons op rest ih =>
    intro r r2 h hap
    obtain ⟨now, f, wt, x⟩ := op
    simp only [ExpDecayingReservoir.applyAdds] at hap
    cases hd : r.doAdd now f wt x with
    | error e =>
      rw [hd] at hap
      exact absurd hap (by simp [ebind_err])
    | ok pr =>
      obtain ⟨b, rmid⟩ := pr
      rw [hd, ebind_ok] at hap
      obtain ⟨hinv2, hsz2⟩ := ed_doAdd_inv r now f wt x b rmid h hd
      obtain ⟨hi, hs⟩ := ih rmid r2 hinv2 hap
      exact ⟨hi, hs.trans hsz2⟩

/-- Inside the invariant, the exposed values are at most `size` many. -/
theorem ed_getValues_length_le (r : ExpDecayingReservoir) (h : r.vals.length ≤ r.size) :
    r.getValues.length ≤ r.size := by
  simp only [ExpDecayingReservoir.getValues, List.length_map, List.length_take]
  omega

/-- C9: for the uniform, sliding count window and exponentially-decaying
reservoirs of configured capacity `N`, `len(values()) ≤ N` holds after every
sequence of `add` calls from the initial state (random draws, clock readings,
rescale factors and weighted times are arbitrary inputs; a sequence of adds on
the decaying reservoir that raises is excluded by its success hypothesis). -/
theorem reservoir_capacity_invariant :
    (∀ (N : ℕ) (ops : List (ℕ × ℚ)),
        ((UniformReservoir.init N).applyAdds ops).getValues.length ≤ N)
    ∧ (∀ (N : ℕ) (ops : List ℚ),
        ((SlidingWindowReservoir.init N).applyAdds ops).getValues.length ≤ N)
    ∧ (∀ (N : ℕ) (alpha t0 : ℚ) (ops : List (ℚ × ℚ × ℚ × ℚ))
          (r : ExpDecayingReservoir),
        (ExpDecayingReservoir.init N alpha t0).applyAdds ops = .ok r →
        r.getValues.length ≤ N) := by
  refine ⟨?_, ?_, ?_⟩
  · intro N ops
    have h := uniform_applyAdds_size ops (UniformReservoir.init N)
    have h2 := uniform_getValues_length_le ((UniformReservoir.init N).applyAdds ops)
    rw [h] at h2
    exact h2
  · intro N ops
    obtain ⟨h1, h2⟩ := sliding_applyAdds_le ops (SlidingWindowReservoir.init N) (by simp [SlidingWindowReservoir.init])
    simp only [SlidingWindowReservoir.getValues]
    have h3 : ((SlidingWindowReservoir.init N).applyAdds ops).size = N := h2
    exact le_trans h1 (le_of_eq h3)
  · intro N alpha t0 ops r hap
    obtain ⟨hinv, hsz⟩ := ed_applyAdds_inv ops (ExpDecayingReservoir.init N alpha t0) r
      ⟨by simp [ExpDecayingReservoir.init], by simp [ExpDecayingReservoir.init]⟩ hap
    have := ed_getValues_length_le r hinv.2
    rw [hsz] at this
    exact this

/-- C9 witness: the decaying-reservoir clause applied to one concrete add into a
fresh reservoir of capacity 2. -/
theorem reservoir_capacity_invariant_witness :
    (⟨2, 1, 0, 1, 3600, [(3/2, 7)]⟩ : ExpDecayingReservoir).getValues.length ≤ 2 :=
  reservoir_capacity_invariant.2.2 2 1 0 [(1, 1, 3/2, 7)]
    ⟨2, 1, 0, 1, 3600, [(3/2, 7)]⟩ (by with_unfolding_all rfl)

/-!
C3. `delete_metric` removes the instrument and purges its name from every tag
set — but, unlike `untag`, it never drops a tag whose set became empty: the
spec's "tags that become empty are dropped" does not hold.
-/

/-- `find?` ignores a filter whose predicate is implied by the search
predicate. -/
theorem find?_filter_of_imp {α : Type} (l : List α) (p q : α → Bool)
    (h : ∀ a, p a = true → q a = true) : (l.filter q).find? p = l.find? p := by
  induction l with
  | nil => rfl
  | cons a rest ih =>
    simp only [List.filter_cons]
    by_cases hq : q a = true
    · rw [if_pos hq]
      by_cases hp : p a = true
      · rw [List.find?_cons_of_pos _ hp, List.find?_cons_of_pos _ hp]
      · rw [List.find?_cons_of_neg _ (by simpa using hp),
            List.find?_cons_of_neg _ (by simpa using hp), ih]
    · have hp : ¬ p a = true := fun hpa => hq (h a hpa)
      rw [if_neg hq, ih, List.find?_cons_of_neg _ (by simpa using hp)]

/-- C3 counterexample: with registry `{requests ↦ counter}` and tags
`{web ↦ {requests}}`, deleting `requests` empties the `web` tag's name set but
leaves the `web` tag in the tag map (with an empty set), contradicting the
claim that no emptied tag remains. -/
theorem delete_metric_claim_false :
    deleteMetric ⟨[("requests", Metric.counter)], [("web", ["requests"])]⟩ "requests" =
      (some Metric.counter, ⟨[], [("web", [])]⟩) ∧
    ("web", ([] : List String)) ∈
      (deleteMetric ⟨[("requests", Metric.counter)], [("web", ["requests"])]⟩
        "requests").2.tags :=
  ⟨by with_unfolding_all rfl, by with_unfolding_all decide⟩

/-- C3 (amended): `delete_metric(name)` returns the removed instrument (or
`None`), unbinds the name, leaves every other binding intact, and removes the
name from every tag's set — but the set of tags is unchanged: a tag whose name
set becomes empty stays in the tag map with an empty set (only `untag` drops
empty tags). Tag sets are duplicate-free (they model Python sets). -/
theorem delete_metric_corrected (st : Registry) (name : String)
    (hnodup : ∀ t ∈ st.tags, t.2.Nodup) :
    (deleteMetric st name).1 = st.lookup name
    ∧ (deleteMetric st name).2.lookup name = none
    ∧ (∀ other, other ≠ name →
        (deleteMetric st name).2.lookup other = st.lookup other)
    ∧ (deleteMetric st name).2.tags.map Prod.fst = st.tags.map Prod.fst
    ∧ (∀ t ∈ (deleteMetric st name).2.tags, name ∉ t.2) := by
  refine ⟨rfl, ?_, ?_, ?_, ?_⟩
  · simp only [deleteMetric, Registry.lookup, Option.map_eq_none', List.find?_eq_none]
    intro x hx
    rw [List.mem_filter] at hx
    simpa using hx.2
  · intro other hne
    simp only [deleteMetric, Registry.lookup]
    congr 1
    apply find?_filter_of_imp
    intro a hpa
    have ha : a.1 = other := by simpa using hpa
    simp [ha, hne]
  · simp only [deleteMetric, List.map_map]
    rfl
  · intro t ht
    simp only [deleteMetric, List.mem_map] at ht
    obtain ⟨t0, ht0, rfl⟩ := ht
    by_cases hmem : name ∈ t0.2
    · simp only [if_pos hmem]
      exact (hnodup t0 ht0).not_mem_erase
    · simp only [if_neg hmem]
      exact hmem

/-- C3 witness: the tag-keys-unchanged clause at the counterexample state — the
`web` tag key survives the deletion. -/
theorem delete_metric_corrected_witness :
    (deleteMetric ⟨[("requests", Metric.counter)], [("web", ["requests"])]⟩
        "requests").2.tags.map Prod.fst =
      (⟨[("requests", Metric.counter)], [("web", ["requests"])]⟩ : Registry).tags.map
        Prod.fst :=
  (delete_metric_corrected ⟨[("requests", Metric.counter)], [("web", ["requests"])]⟩
    "requests" (by decide)).2.2.2.1

/-!
C8. `get_or_create_histogram` is idempotent on an equal reservoir spec and
fails with `DuplicateMetricError` on a different spec or a non-histogram
binding.
-/

/-- Looking up the name just appended to the registry finds the new binding. -/
theorem lookup_append_self (st : Registry) (name : String) (m : Metric)
    (h : st.lookup name = none) :
    Registry.lookup { st with registry := st.registry ++ [(name, m)] } name = some m := by
  simp only [Registry.lookup] at h ⊢
  have h0 : st.registry.find? (fun p => p.1 == name) = none := by
    cases hf : st.registry.find? (fun p => p.1 == name)
    · rfl
    · rw [hf] at h
      simp at h
  rw [List.find?_append, h0]
  simp

/-- C8: starting from a registry where `name` is unbound, the first
`get_or_create_histogram(name, spec)` binds a histogram with that reservoir
spec; a second call with the same spec returns the very same instrument with
the registry unchanged; a second call with a different spec fails with
`DuplicateMetricError`; and on a name bound to a non-histogram instrument the
call fails with `DuplicateMetricError`. -/
theorem get_or_create_histogram_idempotent (st : Registry) (name : String)
    (rp : ReservoirParams) (h : st.lookup name = none) :
    getOrCreateHistogram st name rp =
      .ok (.histogram rp, { st with registry := st.registry ++ [(name, .histogram rp)] })
    ∧ getOrCreateHistogram
        { st with registry := st.registry ++ [(name, .histogram rp)] } name rp =
      .ok (.histogram rp, { st with registry := st.registry ++ [(name, .histogram rp)] })
    ∧ (∀ rp2, rp2 ≠ rp →
        getOrCreateHistogram
          { st with registry := st.registry ++ [(name, .histogram rp)] } name rp2 =
          .error .duplicateMetricError)
    ∧ (∀ (st2 : Registry) (m : Metric), st2.lookup name = some m →
        (∀ rp2, m ≠ .histogram rp2) →
        getOrCreateHistogram st2 name rp = .error .duplicateMetricError) := by
  have hl := lookup_append_self st name (.histogram rp) h
  refine ⟨?_, ?_, ?_, ?_⟩
  · simp only [getOrCreateHistogram, newMetric, h]
  · simp only [getOrCreateHistogram, newMetric, hl]
    rw [if_pos trivial]
  · intro rp2 hne
    simp only [getOrCreateHistogram, newMetric, hl]
    rw [if_neg (fun heq => hne heq.symm)]
  · intro st2 m hm hnm
    cases m with
    | histogram rp2 => exact absurd rfl (hnm rp2)
    | counter => simp only [getOrCreateHistogram, newMetric, hm]
    | gauge => simp only [getOrCreateHistogram, newMetric, hm]
    | meterMetric i => simp only [getOrCreateHistogram, newMetric, hm]

/-- C8 witness: creation then idempotent re-creation of a uniform-reservoir
histogram named `h` in an empty registry. -/
theorem get_or_create_histogram_idempotent_witness :
    getOrCreateHistogram ⟨[], []⟩ "h" (.uniform 9) =
      .ok (.histogram (.uniform 9), ⟨[("h", .histogram (.uniform 9))], []⟩)
    ∧ getOrCreateHistogram ⟨[("h", .histogram (.uniform 9))], []⟩ "h" (.uniform 9) =
      .ok (.histogram (.uniform 9), ⟨[("h", .histogram (.uniform 9))], []⟩) :=
  ⟨(get_or_create_histogram_idempotent ⟨[], []⟩ "h" (.uniform 9) rfl).1,
   (get_or_create_histogram_idempotent ⟨[], []⟩ "h" (.uniform 9) rfl).2.1⟩

/-!
C6. A meter snapshot right after creation: counts and rates are all zero — but
the `mean` field is `count / (now - started_on)`, and at zero elapsed time this
is `0 / 0.0`, which raises `ZeroDivisionError` in Python; the code does not
treat it as `0.0`.
-/

/-- An EWMA with zero accumulator and zero rate ticks to itself (becoming
initialized), for any nonzero tick interval. -/
theorem ewma_zero_tick (p i a : ℚ) (b : Bool) (hi : i ≠ 0) :
    EWMA.tick ⟨p, i, a, 0, 0, b⟩ = .ok ⟨p, i, a, 0, 0, true⟩ := by
  simp only [EWMA.tick, pydiv, Int.cast_zero, zero_div, if_neg hi, ebind_ok]
  cases b <;> simp

/-- Ticking all four EWMAs of an all-zero meter yields the same all-zero
meter. -/
theorem meter_tickOnce_zero (i t0 lt a1 a5 a15 ad : ℚ) (c : ℤ) (b1 b2 b3 b4 : Bool)
    (hi : i ≠ 0) :
    Meter.tickOnce ⟨i, ⟨1, i, a1, 0, 0, b1⟩, ⟨5, i, a5, 0, 0, b2⟩, ⟨15, i, a15, 0, 0, b3⟩,
        ⟨60 * 24, i, ad, 0, 0, b4⟩, t0, lt, c⟩ =
      .ok ⟨i, ⟨1, i, a1, 0, 0, true⟩, ⟨5, i, a5, 0, 0, true⟩, ⟨15, i, a15, 0, 0, true⟩,
        ⟨60 * 24, i, ad, 0, 0, true⟩, t0, lt, c⟩ := by
  simp only [Meter.tickOnce, ewma_zero_tick _ _ _ _ hi, ebind_ok]

/-- Any number of ticks of an all-zero meter leaves counts and rates at zero. -/
theorem meter_tickAll_zero (i t0 lt a1 a5 a15 ad : ℚ) (c : ℤ) (hi : i ≠ 0) :
    ∀ (n : ℕ) (b1 b2 b3 b4 : Bool),
      ∃ c1 c2 c3 c4 : Bool,
        Meter.tickAll ⟨i, ⟨1, i, a1, 0, 0, b1⟩, ⟨5, i, a5, 0, 0, b2⟩,
            ⟨15, i, a15, 0, 0, b3⟩, ⟨60 * 24, i, ad, 0, 0, b4⟩, t0, lt, c⟩ n =
          .ok ⟨i, ⟨1, i, a1, 0, 0, c1⟩, ⟨5, i, a5, 0, 0, c2⟩, ⟨15, i, a15, 0, 0, c3⟩,
            ⟨60 * 24, i, ad, 0, 0, c4⟩, t0, lt, c⟩ := by
  intro n
  induction n with
  | zero => exact fun b1 b2 b3 b4 => ⟨b1, b2, b3, b4, rfl⟩
  | succ k ih =>
    intro b1 b2 b3 b4
    obtain ⟨c1, c2, c3, c4, hk⟩ := ih true true true true
    refine ⟨c1, c2, c3, c4, ?_⟩
    rw [Meter.tickAll, meter_tickOnce_zero i t0 lt a1 a5 a15 ad c b1 b2 b3 b4 hi,
      ebind_ok, hk]

/-- C6 counterexample: a snapshot of a fresh meter taken at exactly the
creation instant (elapsed time zero) raises `ZeroDivisionError` from
`count / (now - started_on)` — it does not return a snapshot with mean `0.0`.
(The tick interval is the default 5 and all four smoothing factors are `1/10`;
their values are irrelevant here.) -/
theorem meter_fresh_snapshot_claim_false :
    Meter.get (Meter.init 5 0 (1/10) (1/10) (1/10) (1/10)) 0 =
      .error .zeroDivisionError := by
  with_unfolding_all rfl

/-- C6 (amended): a meter snapshot taken after creation with no observations
returns `count = 0`, all four EWMA rates `0.0` and `mean = 0.0` — provided the
elapsed time `now - started_on` is nonzero (and the tick interval is nonzero,
as the default 5 is); at exactly zero elapsed time the `mean` division raises
`ZeroDivisionError` instead (see the counterexample). -/
theorem meter_fresh_snapshot_corrected (i t0 a1 a5 a15 ad now : ℚ)
    (hi : i ≠ 0) (hnow : now ≠ t0) :
    Meter.get (Meter.init i t0 a1 a5 a15 ad) now = .ok ⟨0, 0, 0, 0, 0, 0⟩ := by
  have hsub : now - t0 ≠ 0 := sub_ne_zero.mpr hnow
  simp only [Meter.get, Meter.init, Meter.tick, EWMA.init]
  by_cases hc : i < now - t0
  · rw [if_pos hc]
    simp only [pydiv, if_neg hi, ebind_ok]
    obtain ⟨c1, c2, c3, c4, hk⟩ :=
      meter_tickAll_zero i t0 t0 a1 a5 a15 ad 0 hi
        ((pyTrunc ((now - t0) / i)).toNat) false false false false
    rw [hk, ebind_ok, ebind_ok]
    simp only [pydiv, Int.cast_zero, zero_div, if_neg hsub, ebind_ok]
  · rw [if_neg hc]
    rw [ebind_ok]
    simp only [pydiv, Int.cast_zero, zero_div, if_neg hsub, ebind_ok]

/-- C6 witness: the amended snapshot at tick interval 5, creation time 0 and
reading time 17 (which exercises the catch-up ticking path). -/
theorem meter_fresh_snapshot_corrected_witness :
    Meter.get (Meter.init 5 0 (1/10) (1/10) (1/10) (1/10)) 17 =
      .ok ⟨0, 0, 0, 0, 0, 0⟩ :=
  meter_fresh_snapshot_corrected 5 0 (1/10) (1/10) (1/10) (1/10) 17
    (by norm_num) (by norm_num)

/-!
C7. The histogram snapshot: on empty data every statistic is zeroed and the
histogram field defaults to `[(0, 0)]`. Statistics errors of individual
statistics are swallowed and replaced by `0.0` — but an individual statistic
can also raise a NON-statistics error (e.g. `harmonic_mean([0.0])` divides by a
zero reciprocal sum), which the `safe` wrapper does not catch: the whole
snapshot call then fails, so "the other fields are still computed" does not
hold in general.
-/

/-- A successful `safe` outcome comes either from the statistic itself or from
a swallowed `StatisticsError` (and is then `0`). -/
theorem safeStat_ok_cases {r : Except PyErr ℚ} {v : ℚ} (h : safeStat r = .ok v) :
    r = .ok v ∨ (r = .error .statisticsError ∧ v = 0) := by
  cases r with
  | ok w =>
    left
    simpa [safeStat] using h
  | error e =>
    cases e with
    | statisticsError =>
      right
      refine ⟨rfl, ?_⟩
      simp only [safeStat] at h
      injection h with h2
      exact h2.symm
    | zeroDivisionError => simp [safeStat] at h
    | indexError => simp [safeStat] at h
    | duplicateMetricError => simp [safeStat] at h
    | invalidMetricError => simp [safeStat] at h

/-- `safe` never lets a `StatisticsError` escape. -/
theorem safeStat_error_ne {r : Except PyErr ℚ} {e : PyErr} (h : safeStat r = .error e) :
    e ≠ .statisticsError := by
  intro he
  subst he
  cases r with
  | ok v => simp [safeStat] at h
  | error e2 => cases e2 <;> simp [safeStat] at h

/-- The histogram `try` block never lets a `StatisticsError` escape. -/
theorem safeHist_error_ne {r : Except PyErr (List (ℚ × ℕ))} {e : PyErr}
    (h : safeHist r = .error e) : e ≠ .statisticsError := by
  intro he
  subst he
  cases r with
  | ok v => simp [safeHist] at h
  | error e2 => cases e2 <;> simp [safeHist] at h

/-- `pure` in the `Except` monad is `ok`. -/
theorem epure_eq {α : Type} (a : α) : (pure a : Except PyErr α) = .ok a := rfl

/-- A `mapM` over `safe`-wrapped statistics never errors with a
`StatisticsError`. -/
theorem mapM_safeStat_error_ne {l : List ℚ} {f : ℚ → Except PyErr ℚ} :
    ∀ {e : PyErr}, l.mapM (fun p => safeStat (f p)) = .error e →
      e ≠ .statisticsError := by
  induction l with
  | nil =>
    intro e h
    rw [List.mapM_nil, epure_eq] at h
    exact absurd h (by simp)
  | cons a rest ih =>
    intro e h
    rw [List.mapM_cons] at h
    cases ha : safeStat (f a) with
    | error e2 =>
      rw [ha, ebind_err] at h
      injection h with h2
      exact h2 ▸ safeStat_error_ne ha
    | ok v =>
      rw [ha, ebind_ok] at h
      cases hrest : rest.mapM (fun p => safeStat (f p)) with
      | error e2 =>
        rw [hrest, ebind_err] at h
        injection h with h2
        exact h2 ▸ ih hrest
      | ok vs =>
        rw [hrest, ebind_ok, epure_eq] at h
        exact absurd h (by simp)

/-- C7 counterexample: on the reachable one-sample data `[0.0]`, `variance`
raises a statistics error (so the claim demands `variance = 0.0` with the other
fields computed), but `harmonic_mean` raises a `ZeroDivisionError` that the
`safe` wrapper does not catch: the whole snapshot call fails instead of
producing a map. (`ratOps` fixes the transcendental primitives; the error does
not depend on their values.) -/
theorem histogram_snapshot_claim_false :
    variance [0] = .error .statisticsError ∧
    histogramGet ratOps [0] = .error .zeroDivisionError :=
  ⟨by with_unfolding_all rfl, by with_unfolding_all rfl⟩

/-- C7 (amended): (a) the snapshot of an empty reservoir has every statistic
equal to `0`, `percentile` pairing every level with `0`, `histogram = [(0,0)]`
and `n = 0`; (b) whenever the snapshot call succeeds, any individual statistic
that raised a statistics error has been replaced by `0.0` (`[(0, 0)]` for the
histogram field) while the other fields hold their computed values (`n`, `min`,
`max` as stated); (c) but the snapshot call can also fail — precisely when some
statistic raises an error other than a statistics error (such as
`ZeroDivisionError`), which `safe` does not swallow; a `StatisticsError` itself
never escapes `get`. -/
theorem histogram_snapshot_corrected :
    (∀ ops : FloatOps, histogramGet ops [] =
      .ok ⟨0, 0, 0, 0, 0, 0, 0, 0, 0, 0,
           [(50, 0), (75, 0), (90, 0), (95, 0), (99, 0), (999/10, 0)], [(0, 0)], 0⟩)
    ∧ (∀ (ops : FloatOps) (values : List ℚ) (snap : HistogramSnapshot),
        histogramGet ops values = .ok snap →
        snap.n = values.length
        ∧ snap.min = values.headD 0
        ∧ snap.max = values.getLastD 0
        ∧ (mean values = .error .statisticsError → snap.arithmeticMean = 0)
        ∧ (geometricMean ops values = .error .statisticsError → snap.geometricMean = 0)
        ∧ (harmonicMean values = .error .statisticsError → snap.harmonicMean = 0)
        ∧ (median values = .error .statisticsError → snap.median = 0)
        ∧ (variance values = .error .statisticsError → snap.variance = 0)
        ∧ (stdev ops values = .error .statisticsError → snap.standardDeviation = 0)
        ∧ (skewness ops values = .error .statisticsError → snap.skewness = 0)
        ∧ (kurtosis ops values = .error .statisticsError → snap.kurtosis = 0)
        ∧ (getHistogram ops values = .error .statisticsError → snap.histogram = [(0, 0)]))
    ∧ (∀ (ops : FloatOps) (values : List ℚ) (e : PyErr),
        histogramGet ops values = .error e → e ≠ .statisticsError) := by
  refine ⟨?_, ?_, ?_⟩
  · intro ops
    have hps : plevels.mapM (fun p => safeStat (percentile [] p)) =
        .ok [0, 0, 0, 0, 0, 0] := by with_unfolding_all rfl
    have hv : variance [] = .error .statisticsError := by with_unfolding_all rfl
    have hhist : safeHist (getHistogram ops []) = .ok [(0, 0)] := by
      simp [getHistogram, safeHist]
    have h1 : safeStat (mean []) = .ok 0 := by with_unfolding_all rfl
    have h2 : safeStat (geometricMean ops []) = .ok 0 := by simp [geometricMean, safeStat]
    have h3 : safeStat (harmonicMean []) = .ok 0 := by with_unfolding_all rfl
    have h4 : safeStat (median []) = .ok 0 := by with_unfolding_all rfl
    have h5 : safeStat (variance []) = .ok 0 := by with_unfolding_all rfl
    have h6 : safeStat (stdev ops []) = .ok 0 := by
      simp [stdev, hv, ebind_err, safeStat]
    have h7 : safeStat (skewness ops []) = .ok 0 := by simp [skewness, safeStat]
    have h8 : safeStat (kurtosis ops []) = .ok 0 := by simp [kurtosis, safeStat]
    simp only [histogramGet, hps, hhist, h1, h2, h3, h4, h5, h6, h7, h8, ebind_ok]
    rfl
  · intro ops values snap hok
    simp only [histogramGet] at hok
    cases hps : plevels.mapM (fun p => safeStat (percentile values p)) with
    | error e => rw [hps, ebind_err] at hok; exact absurd hok (by simp)
    | ok ps =>
    rw [hps, ebind_ok] at hok
    cases hh : safeHist (getHistogram ops values) with
    | error e => rw [hh, ebind_err] at hok; exact absurd hok (by simp)
    | ok hist =>
    rw [hh, ebind_ok] at hok
    cases ham : safeStat (mean values) with
    | error e => rw [ham, ebind_err] at hok; exact absurd hok (by simp)
    | ok am =>
    rw [ham, ebind_ok] at hok
    cases hgm : safeStat (geometricMean ops values) with
    | error e => rw [hgm, ebind_err] at hok; exact absurd hok (by simp)
    | ok gm =>
    rw [hgm, ebind_ok] at hok
    cases hhm : safeStat (harmonicMean values) with
    | error e => rw [hhm, ebind_err] at hok; exact absurd hok (by simp)
    | ok hm =>
    rw [hhm, ebind_ok] at hok
    cases hmd : safeStat (median values) with
    | error e => rw [hmd, ebind_err] at hok; exact absurd hok (by simp)
    | ok md =>
    rw [hmd, ebind_ok] at hok
    cases hvr : safeStat (variance values) with
    | error e => rw [hvr, ebind_err] at hok; exact absurd hok (by simp)
    | ok vr =>
    rw [hvr, ebind_ok] at hok
    cases hsd : safeStat (stdev ops values) with
    | error e => rw [hsd, ebind_err] at hok; exact absurd hok (by simp)
    | ok sd =>
    rw [hsd, ebind_ok] at hok
    cases hsk : safeStat (skewness ops values) with
    | error e => rw [hsk, ebind_err] at hok; exact absurd hok (by simp)
    | ok sk =>
    rw [hsk, ebind_ok] at hok
    cases hku : safeStat (kurtosis ops values) with
    | error e => rw [hku, ebind_err] at hok; exact absurd hok (by simp)
    | ok ku =>
    rw [hku, ebind_ok] at hok
    injection hok with hsnap
    subst hsnap
    refine ⟨rfl, rfl, rfl, ?_, ?_, ?_, ?_, ?_, ?_, ?_, ?_, ?_⟩
    · intro hx
      rw [hx] at ham
      simp only [safeStat] at ham
      injection ham with h2
      exact h2.symm
    · intro hx
      rw [hx] at hgm
      simp only [safeStat] at hgm
      injection hgm with h2
      exact h2.symm
    · intro hx
      rw [hx] at hhm
      simp only [safeStat] at hhm
      injection hhm with h2
      exact h2.symm
    · intro hx
      rw [hx] at hmd
      simp only [safeStat] at hmd
      injection hmd with h2
      exact h2.symm
    · intro hx
      rw [hx] at hvr
      simp only [safeStat] at hvr
      injection hvr with h2
      exact h2.symm
    · intro hx
      rw [hx] at hsd
      simp only [safeStat] at hsd
      injection hsd with h2
      exact h2.symm
    · intro hx
      rw [hx] at hsk
      simp only [safeStat] at hsk
      injection hsk with h2
      exact h2.symm
    · intro hx
      rw [hx] at hku
      simp only [safeStat] at hku
      injection hku with h2
      exact h2.symm
    · intro hx
      rw [hx] at hh
      simp only [safeHist] at hh
      injection hh with h2
      exact h2.symm
  · intro ops values e herr
    simp only [histogramGet] at herr
    cases hps : plevels.mapM (fun p => safeStat (percentile values p)) with
    | error e2 =>
      rw [hps, ebind_err] at herr
      injection herr with h2
      exact h2 ▸ mapM_safeStat_error_ne hps
    | ok ps =>
    rw [hps, ebind_ok] at herr
    cases hh : safeHist (getHistogram ops values) with
    | error e2 =>
      rw [hh, ebind_err] at herr
      injection herr with h2
      exact h2 ▸ safeHist_error_ne hh
    | ok hist =>
    rw [hh, ebind_ok] at herr
    cases ham : safeStat (mean values) with
    | error e2 =>
      rw [ham, ebind_err] at herr
      injection herr with h2
      exact h2 ▸ safeStat_error_ne ham
    | ok am =>
    rw [ham, ebind_ok] at herr
    cases hgm : safeStat (geometricMean ops values) with
    | error e2 =>
      rw [hgm, ebind_err] at herr
      injection herr with h2
      exact h2 ▸ safeStat_error_ne hgm
    | ok gm =>
    rw [hgm, ebind_ok] at herr
    cases hhm : safeStat (harmonicMean values) with
    | error e2 =>
      rw [hhm, ebind_err] at herr
      injection herr with h2
      exact h2 ▸ safeStat_error_ne hhm
    | ok hm =>
    rw [hhm, ebind_ok] at herr
    cases hmd : safeStat (median values) with
    | error e2 =>
      rw [hmd, ebind_err] at herr
      injection herr with h2
      exact h2 ▸ safeStat_error_ne hmd
    | ok md =>
    rw [hmd, ebind_ok] at herr
    cases hvr : safeStat (variance values) with
    | error e2 =>
      rw [hvr, ebind_err] at herr
      injection herr with h2
      exact h2 ▸ safeStat_error_ne hvr
    | ok vr =>
    rw [hvr, ebind_ok] at herr
    cases hsd : safeStat (stdev ops values) with
    | error e2 =>
      rw [hsd, ebind_err] at herr
      injection herr with h2
      exact h2 ▸ safeStat_error_ne hsd
    | ok sd =>
    rw [hsd, ebind_ok] at herr
    cases hsk : safeStat (skewness ops values) with
    | error e2 =>
      rw [hsk, ebind_err] at herr
      injection herr with h2
      exact h2 ▸ safeStat_error_ne hsk
    | ok sk =>
    rw [hsk, ebind_ok] at herr
    cases hku : safeStat (kurtosis ops values) with
    | error e2 =>
      rw [hku, ebind_err] at herr
      injection herr with h2
      exact h2 ▸ safeStat_error_ne hku
    | ok ku =>
    rw [hku, ebind_ok] at herr
    exact absurd herr (by simp)

/-- C7 witness: the swallowing clause applied at `values = [1]` (a single
sample): the snapshot succeeds, `variance [1]` raises a statistics error, and
the snapshot's `variance` field is `0`. -/
theorem histogram_snapshot_corrected_witness :
    (⟨1, 1, 1, 1, 1, 1, 0, 0, 0, 0,
      [(50, 1), (75, 1), (90, 1), (95, 1), (99, 1), (999/10, 1)], [(0, 0)], 1⟩ :
        HistogramSnapshot).variance = 0 :=
  (histogram_snapshot_corrected.2.1 ratOps [1]
      ⟨1, 1, 1, 1, 1, 1, 0, 0, 0, 0,
       [(50, 1), (75, 1), (90, 1), (95, 1), (99, 1), (999/10, 1)], [(0, 0)], 1⟩
      (by with_unfolding_all rfl)).2.2.2.2.2.2.2.1 (by with_unfolding_all rfl)

end Appmetrics
